/-
Verification of the OdznakiGorskie achievement scoring and trip metrics
engine.  The definitions below are shallow embeddings of the Python source
under web/odznaki/services and web/odznaki/signals.py; dates are modelled
as integers (only their order matters), floating point numbers as rationals,
and the Python built-in round (banker's rounding) as pythonRound.
-/
import Mathlib

namespace Odznaki

/-- Python's built-in round on a rational: round half to even. -/
def pythonRound (q : ℚ) : ℤ :=
  let f : ℤ := ⌊q⌋
  let frac : ℚ := q - (f : ℚ)
  if frac < 1/2 then f
  else if 1/2 < frac then f + 1
  else if f % 2 = 0 then f else f + 1

/-- Python's round(x, 2): rounding to two decimal places. -/
def roundTo2 (q : ℚ) : ℚ := (pythonRound (q * 100) : ℚ) / 100

/-! ### POI status calculator
Embedding of POIStatusCalculator._determine_status from
web/odznaki/services/point_of_interest_service.py (lines 131-170). -/

/-- The per-requirement badge data fetched by requirements_data_by_poi_id. -/
structure BadgeData where
  isFullyAchieved : Bool
  startDate : Option ℤ
  endDate : Option ℤ
  deriving DecidableEq

/-- The visit-window test inlined in _determine_status (lines 154-155):
a visit date counts for a badge when it is on or after the start date and
on or before the end date, an absent bound being always satisfied. -/
def statusVisitInWindow (startDate endDate : Option ℤ) (visitDate : ℤ) : Bool :=
  (match startDate with
   | none => true
   | some s => s ≤ visitDate) &&
  (match endDate with
   | none => true
   | some e => visitDate ≤ e)

/-- The activity filter of _determine_status (lines 138-143): a badge is
active when it is not fully achieved and today lies within its window. -/
def badgeIsActive (today : ℤ) (b : BadgeData) : Bool :=
  !b.isFullyAchieved &&
  (match b.startDate with
   | none => true
   | some s => s ≤ today) &&
  (match b.endDate with
   | none => true
   | some e => today ≤ e)

/-- The active requirements of a POI in the supplied badge context. -/
def activeBadgesData (today : ℤ) (badgesData : List BadgeData) : List BadgeData :=
  badgesData.filter (badgeIsActive today)

/-- Embedding of _determine_status: the four-state status decision. -/
def determineStatus (today : ℤ) (visitDates : List ℤ) (badgesData : List BadgeData) : String :=
  if badgesData.isEmpty then "nieaktywny"
  else
    let active := activeBadgesData today badgesData
    if active.isEmpty then "nieaktywny"
    else
      let claimedBadgesCount :=
        (active.filter (fun b =>
          visitDates.any (fun d => statusVisitInWindow b.startDate b.endDate d))).length
      if claimedBadgesCount = active.length then "zdobyty"
      else if !visitDates.isEmpty then "do_ponowienia"
      else "niezdobyty"

/-! ### Scoring engine
Embedding of calculate_poi_scores and its helpers from
web/odznaki/services/scoring_service.py. -/

/-- An active badge as used by the scoring engine (only the fields the
window checks read). -/
structure ScoringBadge where
  id : ℕ
  startDate : Option ℤ
  endDate : Option ℤ
  deriving DecidableEq

/-- The visit-window test inlined twice in calculate_poi_scores
(lines 162-167 and 176-180 of scoring_service.py). -/
def scoringVisitInWindow (startDate endDate : Option ℤ) (visitDate : ℤ) : Bool :=
  (match startDate with
   | none => true
   | some s => s ≤ visitDate) &&
  (match endDate with
   | none => true
   | some e => visitDate ≤ e)

/-- The claimed test of calculate_poi_scores: scan the visit dates in order
and stop at the first one inside the badge window (the for/break loop). -/
def scoringIsClaimed (startDate endDate : Option ℤ) : List ℤ → Bool
  | [] => false
  | d :: ds =>
    if scoringVisitInWindow startDate endDate d then true
    else scoringIsClaimed startDate endDate ds

/-- The requirement rows fetched by calculate_poi_scores: the database
filter keeps only rows whose badge is among the active badges. -/
def activeRequirements (activeBadges : List ScoringBadge) (requirements : List (ℕ × ℕ)) :
    List (ℕ × ℕ) :=
  requirements.filter (fun r => activeBadges.any (fun b => b.id == r.1))

/-- pois_by_badge: the required POI ids of one badge, in row order. -/
def poisOfBadge (reqs : List (ℕ × ℕ)) (badgeId : ℕ) : List ℕ :=
  (reqs.filter (fun r => r.1 == badgeId)).map (fun r => r.2)

/-- badges_by_poi: the requirement badge ids of one POI, in row order. -/
def badgesOfPoi (reqs : List (ℕ × ℕ)) (poiId : ℕ) : List ℕ :=
  (reqs.filter (fun r => r.2 == poiId)).map (fun r => r.1)

/-- active_badges_map lookup by badge id. -/
def findBadge (badges : List ScoringBadge) (badgeId : ℕ) : Option ScoringBadge :=
  badges.find? (fun b => b.id == badgeId)

/-- claimed_count of one badge: how many of its required POIs have a visit
inside the badge window. -/
def claimedCount (badges : List ScoringBadge) (reqs : List (ℕ × ℕ))
    (visitsByPoi : ℕ → List ℤ) (badgeId : ℕ) : ℕ :=
  match findBadge badges badgeId with
  | none => 0
  | some b =>
    ((poisOfBadge reqs badgeId).filter
      (fun p => scoringIsClaimed b.startDate b.endDate (visitsByPoi p))).length

/-- remaining_counts of one badge: total requirements minus claimed ones. -/
def remainingCount (badges : List ScoringBadge) (reqs : List (ℕ × ℕ))
    (visitsByPoi : ℕ → List ℤ) (badgeId : ℕ) : ℕ :=
  (poisOfBadge reqs badgeId).length - claimedCount badges reqs visitsByPoi badgeId

/-- The amount one badge adds to the score of one POI inside the scoring
loop: 100 / remaining for an unclaimed pair with remaining > 0, else 0. -/
def badgeContribution (badges : List ScoringBadge) (reqs : List (ℕ × ℕ))
    (visitsByPoi : ℕ → List ℤ) (badgeId poiId : ℕ) : ℚ :=
  match findBadge badges badgeId with
  | none => 0
  | some b =>
    if scoringIsClaimed b.startDate b.endDate (visitsByPoi poiId) then 0
    else
      let rem := remainingCount badges reqs visitsByPoi badgeId
      if 0 < rem then 100 / (rem : ℚ) else 0

/-- The score accumulation loop of calculate_poi_scores for one POI: fold
over its requirement badges adding 100 / remaining for unclaimed pairs. -/
def poiScore (badges : List ScoringBadge) (requirements : List (ℕ × ℕ))
    (visitsByPoi : ℕ → List ℤ) (poiId : ℕ) : ℚ :=
  (badgesOfPoi (activeRequirements badges requirements) poiId).foldl
    (fun score badgeId =>
      match findBadge badges badgeId with
      | none => score
      | some b =>
        if scoringIsClaimed b.startDate b.endDate (visitsByPoi poiId) then score
        else
          let rem := remainingCount badges (activeRequirements badges requirements)
            visitsByPoi badgeId
          if 0 < rem then score + 100 / (rem : ℚ) else score)
    0

/-! ### Parent rollup and single-POI lookup
Embedding of _aggregate_parent_scores_from_base (scoring_service.py lines
87-108) and get_score_for_single_poi (lines 358-375). -/

/-- One entry of the base scores list: the POI identity and parent pointer,
its score and the names of children rolled into it. -/
structure ScoreItem where
  poiId : ℕ
  parentId : Option ℕ
  name : String
  score : ℚ
  aggregatedFrom : List String
  deriving DecidableEq

/-- The poi ids of the entries of a scores list. -/
def itemIds (l : List ScoreItem) : List ℕ := l.map (fun it => it.poiId)

/-- Membership test of an id in the scores dict. -/
def hasId (l : List ScoreItem) (pid : ℕ) : Bool := l.any (fun it => it.poiId == pid)

/-- Dictionary lookup by poi id (first entry with that id). -/
def entryOf (l : List ScoreItem) (pid : ℕ) : Option ScoreItem :=
  l.find? (fun it => it.poiId == pid)

/-- The updated parent entry: its score increased by the child score and
the child name appended to aggregated_from. -/
def updatedItem (it : ScoreItem) (childScore : ℚ) (childName : String) : ScoreItem :=
  { it with
    score := it.score + childScore,
    aggregatedFrom := it.aggregatedFrom ++ [childName] }

/-- In-place update of the parent entry: add the child score and record the
child name, leaving every other entry unchanged. -/
def applyChildScore (l : List ScoreItem) (pid : ℕ) (childScore : ℚ) (childName : String) :
    List ScoreItem :=
  l.map (fun it => if it.poiId == pid then updatedItem it childScore childName else it)

/-- One iteration of the children loop of _aggregate_parent_scores_from_base:
when both the child and its parent are in the dict, add the child's current
score into the parent entry. -/
def aggregateStep (l : List ScoreItem) (child : ScoreItem) : List ScoreItem :=
  match child.parentId with
  | none => l
  | some pid =>
    if hasId l child.poiId && hasId l pid then
      match entryOf l child.poiId with
      | some cur => applyChildScore l pid cur.score child.name
      | none => l
    else l

/-- The sort order of the final ranking: descending by score. -/
def scoreGE (a b : ScoreItem) : Prop := b.score ≤ a.score

instance : DecidableRel scoreGE :=
  fun a b => inferInstanceAs (Decidable (b.score ≤ a.score))

instance : IsTotal ScoreItem scoreGE := ⟨fun a b => le_total b.score a.score⟩

instance : IsTrans ScoreItem scoreGE := ⟨fun _ _ _ h1 h2 => le_trans h2 h1⟩

/-- The stable descending sort of the final results list. -/
def sortByScoreDesc (l : List ScoreItem) : List ScoreItem :=
  List.insertionSort scoreGE l

/-- Embedding of _aggregate_parent_scores_from_base: roll children scores
into parents present in the dict and resort descending by score. -/
def aggregateParentScoresFromBase (base : List ScoreItem) : List ScoreItem :=
  if base.isEmpty then []
  else
    sortByScoreDesc
      ((base.filter (fun it => it.parentId.isSome)).foldl aggregateStep base)

/-- Embedding of get_score_for_single_poi: linear scan of the full ranking,
returning 0.0 when the POI id is absent. -/
def getScoreForSinglePoi (fullRanking : List ScoreItem) (poiId : ℕ) : ℚ :=
  match fullRanking.find? (fun it => it.poiId == poiId) with
  | some it => it.score
  | none => 0

/-! ### Trip metrics calculator
Embedding of recalculate_trip_stats from
web/odznaki/services/trip_service.py (lines 145-199).  Per-segment stats
come from get_segment_stats, whose distance is rounded to two decimals and
whose elevation gain is rounded to a whole number of meters; here they are
inputs of the trip-level recomputation. -/

/-- One trip segment, already ordered by sequence: its per-segment stats and
its optional parsed 3D path (longitude, latitude, elevation). -/
structure TripSegmentData where
  distanceKm : ℚ
  elevationGainM : ℤ
  gpxPath : Option (List (ℚ × ℚ × ℚ))
  deriving DecidableEq

/-- all_points_in_order: concatenation of the segment paths in sequence
order, skipping segments without a parsed path. -/
def segmentPoints (segs : List TripSegmentData) : List (ℚ × ℚ × ℚ) :=
  segs.foldl
    (fun acc s =>
      match s.gpxPath with
      | some p => acc ++ p
      | none => acc)
    []

/-- The Everest loop body: walk the remaining elevations keeping the best
climb seen so far and the lowest elevation seen so far. -/
def everestScan : List ℚ → ℚ → ℚ → ℚ
  | [], maxDiff, _ => maxDiff
  | e :: rest, maxDiff, minSoFar =>
    everestScan rest (max maxDiff (e - minSoFar)) (min minSoFar e)

/-- The Everest metric of an elevation profile: best climb starting from 0,
walking from the second point; profiles shorter than 2 points give 0. -/
def everestDiffOfElevations : List ℚ → ℚ
  | e0 :: e1 :: rest => everestScan (e1 :: rest) 0 e0
  | _ => 0

/-- The four denormalized trip fields persisted by recalculate_trip_stats. -/
structure TripStats where
  totalDistanceKm : ℚ
  totalElevationGainM : ℤ
  gotPoints : ℤ
  everestDiffM : ℤ
  deriving DecidableEq

/-- Embedding of recalculate_trip_stats: sum the per-segment stats, compute
the Everest metric over the concatenated profile and derive GOT points. -/
def recalculateTripStats (segs : List TripSegmentData) : TripStats :=
  let totalDistance : ℚ := (segs.map (fun s => s.distanceKm)).sum
  let totalElevation : ℤ := (segs.map (fun s => s.elevationGainM)).sum
  let everestDiff : ℚ :=
    everestDiffOfElevations ((segmentPoints segs).map (fun p => p.2.2))
  { totalDistanceKm := roundTo2 totalDistance
    totalElevationGainM := totalElevation
    gotPoints := ⌊totalDistance⌋ + ⌊(totalElevation : ℚ) / 100⌋
    everestDiffM := pythonRound everestDiff }

/-! ### Cache orchestrator
Embedding of the scoring cache keys, the manual invalidation of
scoring_service.invalidate_scoring_cache (lines 72-81) and the three signal
handlers of web/odznaki/signals.py (lines 81-144).  The cache store is a
key/value map from strings to optional values. -/

def scoringDataKey : String := "scoring_data_v1"

def dashboardFullKey : String := "dashboard_scores_full_v1"

def dashboardTopKey : String := "dashboard_scores_top_v1"

def singlePoiRankingKey : String := "full_poi_ranking_for_details"

/-- cache.delete: remove one key from the store. -/
def cacheDelete {V : Type} (key : String) (store : String → Option V) : String → Option V :=
  fun k => if k = key then none else store k

/-- Embedding of invalidate_scoring_cache: the manual invalidation deletes
the base dataset key and the two dashboard keys. -/
def invalidateScoringCache {V : Type} (store : String → Option V) : String → Option V :=
  cacheDelete dashboardTopKey (cacheDelete dashboardFullKey (cacheDelete scoringDataKey store))

/-- Embedding of invalidate_scoring_cache_on_visit_change: fired on any
Visit save or delete; deletes all four scoring cache keys. -/
def invalidateScoringCacheOnVisitChange {V : Type} (store : String → Option V) :
    String → Option V :=
  cacheDelete singlePoiRankingKey
    (cacheDelete dashboardTopKey (cacheDelete dashboardFullKey (cacheDelete scoringDataKey store)))

/-- Embedding of invalidate_scoring_cache_on_badge_change: fired on any
Badge save or delete; deletes all four scoring cache keys. -/
def invalidateScoringCacheOnBadgeChange {V : Type} (store : String → Option V) :
    String → Option V :=
  cacheDelete singlePoiRankingKey
    (cacheDelete dashboardTopKey (cacheDelete dashboardFullKey (cacheDelete scoringDataKey store)))

/-- Embedding of invalidate_scoring_cache_on_requirement_change: fired on
any BadgeRequirement save or delete; deletes all four scoring cache keys. -/
def invalidateScoringCacheOnRequirementChange {V : Type} (store : String → Option V) :
    String → Option V :=
  cacheDelete singlePoiRankingKey
    (cacheDelete dashboardTopKey (cacheDelete dashboardFullKey (cacheDelete scoringDataKey store)))

/-! ### GPX track parser
Embedding of parse_gpx_to_linestring_and_stats from
web/odznaki/services/trip_service.py (lines 25-89).  The external gpxpy
parse step is modelled by the input shape: either the file fails to parse
as track data, or it yields tracks of segments of points whose elevation
may be absent. -/

/-- A track point as produced by gpxpy: position plus optional elevation. -/
structure GpxPoint where
  longitude : ℚ
  latitude : ℚ
  elevation : Option ℚ
  deriving DecidableEq

/-- The outcome of the external gpxpy parse of the uploaded file. -/
inductive GpxInput where
  | malformed (msg : String)
  | wellFormed (tracks : List (List (List GpxPoint)))
  deriving DecidableEq

def gpxTooShortMsg : String :=
  "Plik GPX musi zawierać co najmniej 2 punkty, aby utworzyć trasę."

/-- Embedding of parse_gpx_to_linestring_and_stats: propagate parse errors,
flatten tracks and segments into one ordered point list, fail when fewer
than 2 points remain, and replace an absent elevation by 0. -/
def parseGpxToLinestringAndStats (input : GpxInput) : Except String (List (ℚ × ℚ × ℚ)) :=
  match input with
  | GpxInput.malformed msg => Except.error msg
  | GpxInput.wellFormed tracks =>
    let points := (tracks.flatten.flatten).map
      (fun p => (p.longitude, p.latitude, p.elevation.getD 0))
    if points.length < 2 then Except.error gpxTooShortMsg
    else Except.ok points

theorem length_filter_eq_length_iff {α : Type} (p : α → Bool) (l : List α) :
    (l.filter p).length = l.length ↔ ∀ a ∈ l, p a = true := by
  induction l with
  | nil => simp
  | cons x xs ih =>
    by_cases hx : p x = true
    · simp [List.filter_cons, hx, ih]
    · simp only [List.filter_cons, hx]
      constructor
      · intro h
        have hle := List.length_filter_le p xs
        simp only [Bool.false_eq_true, if_false, List.length_cons] at h
        omega
      · intro h
        exact absurd (h x (by simp)) hx

/-- The consolidated predicate the spec asks for in its design notes: a
visit date is valid for a badge window when each bounded side admits it and
an unbounded side is always satisfied.  This definition follows the spec's
words and is compared with the two call-site embeddings. -/
def visitValidForBadgeWindow (startDate endDate : Option ℤ) (d : ℤ) : Prop :=
  (∀ s, startDate = some s → s ≤ d) ∧ (∀ e, endDate = some e → d ≤ e)

/-! ### Helper lemmas -/

theorem pythonRound_intCast (n : ℤ) : pythonRound (n : ℚ) = n := by
  simp [pythonRound]

theorem pythonRound_zero : pythonRound 0 = 0 := by
  have h := pythonRound_intCast 0
  simpa using h

theorem pythonRound_nonneg {q : ℚ} (h : 0 ≤ q) : 0 ≤ pythonRound q := by
  have hf : (0 : ℤ) ≤ ⌊q⌋ := Int.floor_nonneg.mpr h
  unfold pythonRound
  dsimp only
  split
  · exact hf
  · split
    · omega
    · split
      · exact hf
      · omega

/-- The score fold of calculate_poi_scores equals the sum of the per-badge
contributions, for any list of badge ids and any starting accumulator. -/
theorem scoreFold_eq_sum (badges : List ScoringBadge) (reqs : List (ℕ × ℕ))
    (visitsByPoi : ℕ → List ℤ) (poiId : ℕ) :
    ∀ (bids : List ℕ) (init : ℚ),
      bids.foldl
        (fun score badgeId =>
          match findBadge badges badgeId with
          | none => score
          | some b =>
            if scoringIsClaimed b.startDate b.endDate (visitsByPoi poiId) then score
            else
              let rem := remainingCount badges reqs visitsByPoi badgeId
              if 0 < rem then score + 100 / (rem : ℚ) else score)
        init =
      init + (bids.map (fun bid => badgeContribution badges reqs visitsByPoi bid poiId)).sum := by
  intro bids
  induction bids with
  | nil => intro init; simp
  | cons bid rest ih =>
    intro init
    rw [List.foldl_cons, ih, List.map_cons, List.sum_cons]
    unfold badgeContribution
    cases hf : findBadge badges bid with
    | none => simp
    | some b =>
      by_cases hc : scoringIsClaimed b.startDate b.endDate (visitsByPoi poiId) = true
      · simp [hc]
      · by_cases hr : 0 < remainingCount badges reqs visitsByPoi bid
        · simp only [hc, if_neg, hr, if_pos, Bool.false_eq_true, if_false]
          ring
        · simp [hc, hr]

theorem cacheDelete_self {V : Type} (k : String) (s : String → Option V) :
    cacheDelete k s k = none := by
  simp [cacheDelete]

theorem cacheDelete_other {V : Type} (k k' : String) (s : String → Option V)
    (h : k' ≠ k) : cacheDelete k s k' = s k' := if_neg h

theorem sum_distances_cent (segs : List TripSegmentData)
    (h : ∀ s ∈ segs, ∃ k : ℤ, s.distanceKm = (k : ℚ) / 100) :
    ∃ K : ℤ, (segs.map (fun s => s.distanceKm)).sum = (K : ℚ) / 100 := by
  induction segs with
  | nil => exact ⟨0, by simp⟩
  | cons s rest ih =>
    obtain ⟨k, hk⟩ := h s (List.mem_cons_self s rest)
    obtain ⟨K, hK⟩ := ih (fun t ht => h t (List.mem_cons_of_mem s ht))
    refine ⟨k + K, ?_⟩
    rw [List.map_cons, List.sum_cons, hk, hK]
    push_cast
    ring

theorem le_everestScan (l : List ℚ) :
    ∀ maxDiff minSoFar : ℚ, maxDiff ≤ everestScan l maxDiff minSoFar := by
  induction l with
  | nil => intro m mn; exact le_of_eq rfl
  | cons e rest ih =>
    intro m mn
    rw [everestScan]
    exact le_trans (le_max_left m (e - mn)) (ih _ _)

theorem foldl_min_le_init (l : List ℚ) : ∀ mn : ℚ, l.foldl min mn ≤ mn := by
  induction l with
  | nil => intro mn; exact le_of_eq rfl
  | cons x rest ih =>
    intro mn
    rw [List.foldl_cons]
    exact le_trans (ih _) (min_le_left mn x)

theorem foldl_min_le_mem (l : List ℚ) : ∀ (mn a : ℚ), a ∈ l → l.foldl min mn ≤ a := by
  induction l with
  | nil => intro mn a h; cases h
  | cons x rest ih =>
    intro mn a h
    rw [List.foldl_cons]
    rcases List.mem_cons.mp h with rfl | h'
    · exact le_trans (foldl_min_le_init rest _) (min_le_right mn a)
    · exact ih _ a h'

theorem foldl_min_mem_or (l : List ℚ) :
    ∀ mn : ℚ, l.foldl min mn = mn ∨ l.foldl min mn ∈ l := by
  induction l with
  | nil => intro mn; left; rfl
  | cons x rest ih =>
    intro mn
    rw [List.foldl_cons]
    rcases ih (min mn x) with h | h
    · rw [h]
      rcases le_total mn x with hle | hle
      · left; exact min_eq_left hle
      · right; rw [min_eq_right hle]; exact List.mem_cons_self x rest
    · right; exact List.mem_cons_of_mem x h

theorem everestScan_ge_candidate (l1 : List ℚ) :
    ∀ (b : ℚ) (l2 : List ℚ) (m mn : ℚ),
      b - l1.foldl min mn ≤ everestScan (l1 ++ b :: l2) m mn := by
  induction l1 with
  | nil =>
    intro b l2 m mn
    rw [List.nil_append, List.foldl_nil, everestScan]
    exact le_trans (le_max_right m (b - mn)) (le_everestScan l2 _ _)
  | cons x l1' ih =>
    intro b l2 m mn
    rw [List.cons_append, everestScan, List.foldl_cons]
    exact ih b l2 _ _

theorem everestScan_attains (l : List ℚ) :
    ∀ m mn : ℚ,
      everestScan l m mn = m ∨
      ∃ l1 b l2, l = l1 ++ b :: l2 ∧ everestScan l m mn = b - l1.foldl min mn := by
  induction l with
  | nil => intro m mn; left; rfl
  | cons x rest ih =>
    intro m mn
    rw [everestScan]
    rcases ih (max m (x - mn)) (min mn x) with h | ⟨l1, b, l2, hsplit, hval⟩
    · rcases le_total m (x - mn) with hle | hle
      · right
        exact ⟨[], x, rest, rfl, by rw [h, max_eq_right hle, List.foldl_nil]⟩
      · left; rw [h, max_eq_left hle]
    · right
      refine ⟨x :: l1, b, l2, by rw [hsplit, List.cons_append], ?_⟩
      rw [hval, List.foldl_cons]

theorem everestDiff_nonneg (e : List ℚ) : 0 ≤ everestDiffOfElevations e := by
  match e with
  | [] => exact le_of_eq rfl
  | [_] => exact le_of_eq rfl
  | e0 :: e1 :: rest =>
    rw [everestDiffOfElevations]
    exact le_everestScan (e1 :: rest) 0 e0

theorem everestDiff_cons_of_ne_nil (a : ℚ) (xs : List ℚ) (h : xs ≠ []) :
    everestDiffOfElevations (a :: xs) = everestScan xs 0 a := by
  match xs, h with
  | x :: rest, _ => rfl

theorem everestDiff_ge_pair (e : List ℚ) (l1 : List ℚ) (a : ℚ) (l2 : List ℚ) (b : ℚ)
    (l3 : List ℚ) (hsplit : e = l1 ++ a :: l2 ++ b :: l3) :
    b - a ≤ everestDiffOfElevations e := by
  subst hsplit
  match l1 with
  | [] =>
    rw [List.nil_append, List.cons_append,
      everestDiff_cons_of_ne_nil a (l2 ++ b :: l3) (by simp)]
    have h1 := everestScan_ge_candidate l2 b l3 0 a
    have h2 : b - a ≤ b - l2.foldl min a := by
      have := foldl_min_le_init l2 a
      linarith
    exact le_trans h2 h1
  | e0 :: l1' =>
    have hre : (e0 :: l1') ++ a :: l2 ++ b :: l3 =
        e0 :: ((l1' ++ a :: l2) ++ b :: l3) := by
      simp
    rw [hre,
      everestDiff_cons_of_ne_nil e0 ((l1' ++ a :: l2) ++ b :: l3) (by simp)]
    have h1 := everestScan_ge_candidate (l1' ++ a :: l2) b l3 0 e0
    have h2 : b - a ≤ b - (l1' ++ a :: l2).foldl min e0 := by
      have := foldl_min_le_mem (l1' ++ a :: l2) e0 a (by simp)
      linarith
    exact le_trans h2 h1

theorem everestDiff_attains (e : List ℚ) :
    everestDiffOfElevations e = 0 ∨
    ∃ l1 a l2 b l3, e = l1 ++ a :: l2 ++ b :: l3 ∧
      everestDiffOfElevations e = b - a := by
  match e with
  | [] => left; rfl
  | [_] => left; rfl
  | e0 :: e1 :: rest =>
    rw [everestDiffOfElevations]
    rcases everestScan_attains (e1 :: rest) 0 e0 with h | ⟨l1, b, l2, hsplit, hval⟩
    · left; exact h
    · rcases foldl_min_mem_or l1 e0 with hm | hm
      · right
        refine ⟨[], e0, l1, b, l2, ?_, ?_⟩
        · rw [List.nil_append, List.cons_append, hsplit]
        · rw [hval, hm]
      · right
        generalize hv : l1.foldl min e0 = v at hm hval
        obtain ⟨p, q, hpq⟩ := List.append_of_mem hm
        refine ⟨e0 :: p, v, q, b, l2, ?_, hval⟩
        rw [hsplit, hpq]
        simp

theorem hasId_iff (l : List ScoreItem) (q : ℕ) : hasId l q = true ↔ q ∈ itemIds l := by
  simp only [hasId, itemIds, List.any_eq_true, List.mem_map, beq_iff_eq]

theorem itemIds_applyChildScore (l : List ScoreItem) (pid : ℕ) (s : ℚ) (n : String) :
    itemIds (applyChildScore l pid s n) = itemIds l := by
  unfold itemIds applyChildScore
  rw [List.map_map]
  apply List.map_congr_left
  intro it _
  by_cases h : it.poiId = pid
  · simp [h, updatedItem]
  · simp [h]

theorem itemIds_aggregateStep (l : List ScoreItem) (c : ScoreItem) :
    itemIds (aggregateStep l c) = itemIds l := by
  cases hc : c.parentId with
  | none => simp only [aggregateStep, hc]
  | some pid =>
    simp only [aggregateStep, hc]
    split
    · split
      · exact itemIds_applyChildScore l pid _ c.name
      · rfl
    · rfl

theorem itemIds_foldl_aggregateStep (cs : List ScoreItem) :
    ∀ l : List ScoreItem, itemIds (cs.foldl aggregateStep l) = itemIds l := by
  induction cs with
  | nil => intro l; rfl
  | cons c rest ih =>
    intro l
    rw [List.foldl_cons, ih, itemIds_aggregateStep]

theorem itemIds_perm_aggregate (base : List ScoreItem) :
    List.Perm (itemIds (aggregateParentScoresFromBase base)) (itemIds base) := by
  unfold aggregateParentScoresFromBase
  split
  · rename_i h
    rw [List.isEmpty_iff.mp h]
  · have hperm : List.Perm
        (sortByScoreDesc ((base.filter (fun it => it.parentId.isSome)).foldl
          aggregateStep base))
        ((base.filter (fun it => it.parentId.isSome)).foldl aggregateStep base) :=
      List.perm_insertionSort scoreGE _
    have h1 := hperm.map (fun it => it.poiId)
    have h2 := itemIds_foldl_aggregateStep (base.filter (fun it => it.parentId.isSome)) base
    unfold itemIds at h2 ⊢
    rw [h2] at h1
    exact h1

theorem aggregate_sorted (base : List ScoreItem) :
    List.Sorted scoreGE (aggregateParentScoresFromBase base) := by
  unfold aggregateParentScoresFromBase
  split
  · exact List.sorted_nil
  · exact List.sorted_insertionSort scoreGE _

theorem entryOf_spec (l : List ScoreItem) (q : ℕ) (e : ScoreItem)
    (h : entryOf l q = some e) : e ∈ l ∧ e.poiId = q := by
  refine ⟨List.mem_of_find?_eq_some h, ?_⟩
  have := List.find?_some h
  simpa using this

theorem entryOf_isSome_of_hasId (l : List ScoreItem) (q : ℕ) (h : hasId l q = true) :
    ∃ e, entryOf l q = some e := by
  apply Option.isSome_iff_exists.mp
  rw [entryOf, List.find?_isSome]
  simpa [hasId, List.any_eq_true] using h

theorem aggregateFold_parent_spec :
    ∀ (cs l : List ScoreItem) (e0 : ScoreItem),
      (∀ c ∈ cs, c.parentId.isSome = true) →
      (∀ c ∈ cs, c.poiId ∈ itemIds l) →
      (∀ c ∈ cs, ∀ e ∈ l, e.poiId = c.poiId → e.score = c.score ∧ e.parentId = c.parentId) →
      (∀ c ∈ cs, ∀ q, c.parentId = some q → ∀ e ∈ l, e.poiId = q → e.parentId = none) →
      e0 ∈ l → e0.parentId = none →
      ∃ e1 ∈ cs.foldl aggregateStep l,
        e1.poiId = e0.poiId ∧ e1.parentId = none ∧
        e1.score = e0.score +
          ((cs.filter (fun c => c.parentId == some e0.poiId)).map (fun c => c.score)).sum ∧
        e1.aggregatedFrom = e0.aggregatedFrom ++
          (cs.filter (fun c => c.parentId == some e0.poiId)).map (fun c => c.name) := by
  intro cs
  induction cs with
  | nil =>
    intro l e0 _ _ _ _ he0 hp0
    exact ⟨e0, he0, rfl, hp0, by simp, by simp⟩
  | cons c rest ih =>
    intro l e0 hpar hid hentry htwo he0 hp0
    obtain ⟨pid, hpid⟩ := Option.isSome_iff_exists.mp (hpar c (List.mem_cons_self c rest))
    rw [List.foldl_cons]
    have hcid : hasId l c.poiId = true :=
      (hasId_iff l c.poiId).mpr (hid c (List.mem_cons_self c rest))
    by_cases hpp : hasId l pid = true
    · obtain ⟨cur, hcur⟩ := entryOf_isSome_of_hasId l c.poiId hcid
      obtain ⟨hcurl, hcurq⟩ := entryOf_spec l c.poiId cur hcur
      have hcs : cur.score = c.score :=
        (hentry c (List.mem_cons_self c rest) cur hcurl hcurq).1
      have hstep : aggregateStep l c = applyChildScore l pid c.score c.name := by
        simp only [aggregateStep, hpid]
        rw [if_pos (by rw [hcid, hpp]; rfl), hcur]
        show applyChildScore l pid cur.score c.name = applyChildScore l pid c.score c.name
        rw [hcs]
      rw [hstep]
      have hmem' : ∀ e' ∈ applyChildScore l pid c.score c.name,
          ∃ e ∈ l, (e'.poiId = e.poiId ∧ e'.parentId = e.parentId) ∧
            (e' = e ∨ (e.poiId = pid ∧ e'.score = e.score + c.score ∧
              e'.aggregatedFrom = e.aggregatedFrom ++ [c.name])) := by
        intro e' he'
        obtain ⟨e, hel, hee⟩ := List.mem_map.mp he'
        by_cases h : e.poiId = pid
        · have he'eq : e' = updatedItem e c.score c.name := by
            rw [← hee]
            simp [h]
          refine ⟨e, hel, ⟨by rw [he'eq]; rfl, by rw [he'eq]; rfl⟩,
            Or.inr ⟨h, by rw [he'eq]; rfl, by rw [he'eq]; rfl⟩⟩
        · have he'eq : e' = e := by
            rw [← hee]
            simp [h]
          exact ⟨e, hel, ⟨by rw [he'eq], by rw [he'eq]⟩, Or.inl he'eq⟩
      have hid' : ∀ c' ∈ rest, c'.poiId ∈ itemIds (applyChildScore l pid c.score c.name) := by
        intro c' hc'
        rw [itemIds_applyChildScore]
        exact hid c' (List.mem_cons_of_mem c hc')
      have hentry' : ∀ c' ∈ rest, ∀ e' ∈ applyChildScore l pid c.score c.name,
          e'.poiId = c'.poiId → e'.score = c'.score ∧ e'.parentId = c'.parentId := by
        intro c' hc' e' he' hpe
        obtain ⟨e, hel, hfields, hcase⟩ := hmem' e' he'
        rcases hcase with heq | ⟨hpid_e, _, _⟩
        · rw [heq]
          exact hentry c' (List.mem_cons_of_mem c hc') e hel (hfields.1.symm.trans hpe)
        · have hnone : e.parentId = none :=
            htwo c (List.mem_cons_self c rest) pid hpid e hel hpid_e
          have heq := hentry c' (List.mem_cons_of_mem c hc') e hel
            (hfields.1.symm.trans hpe)
          have hsome := hpar c' (List.mem_cons_of_mem c hc')
          rw [← heq.2, hnone] at hsome
          exact absurd hsome (by simp)
      have htwo' : ∀ c' ∈ rest, ∀ q, c'.parentId = some q →
          ∀ e' ∈ applyChildScore l pid c.score c.name, e'.poiId = q → e'.parentId = none := by
        intro c' hc' q hq e' he' hpe
        obtain ⟨e, hel, hfields, _⟩ := hmem' e' he'
        rw [hfields.2]
        exact htwo c' (List.mem_cons_of_mem c hc') q hq e hel (hfields.1.symm.trans hpe)
      by_cases hpe0 : pid = e0.poiId
      · have he0' : updatedItem e0 c.score c.name ∈ applyChildScore l pid c.score c.name := by
          unfold applyChildScore
          apply List.mem_map.mpr
          refine ⟨e0, he0, ?_⟩
          simp [hpe0]
        obtain ⟨e1, he1, h1, h2, h3, h4⟩ := ih (applyChildScore l pid c.score c.name)
          (updatedItem e0 c.score c.name)
          (fun c' hc' => hpar c' (List.mem_cons_of_mem c hc')) hid' hentry' htwo' he0' hp0
        have hfc : (c.parentId == some e0.poiId) = true := by
          rw [hpid, hpe0]
          exact beq_self_eq_true _
        have hsc0 : (updatedItem e0 c.score c.name).score = e0.score + c.score := rfl
        have hag0 : (updatedItem e0 c.score c.name).aggregatedFrom =
            e0.aggregatedFrom ++ [c.name] := rfl
        have hpd0 : (updatedItem e0 c.score c.name).poiId = e0.poiId := rfl
        rw [hpd0] at h3 h4
        refine ⟨e1, he1, h1, h2, ?_, ?_⟩
        · rw [List.filter_cons, if_pos hfc, List.map_cons, List.sum_cons, h3, hsc0]
          ring
        · rw [List.filter_cons, if_pos hfc, List.map_cons, h4, hag0, List.append_assoc]
          rfl
      · have he0' : e0 ∈ applyChildScore l pid c.score c.name := by
          unfold applyChildScore
          apply List.mem_map.mpr
          refine ⟨e0, he0, ?_⟩
          have hne' : ¬ e0.poiId = pid := fun h => hpe0 h.symm
          simp [hne']
        obtain ⟨e1, he1, h1, h2, h3, h4⟩ := ih (applyChildScore l pid c.score c.name) e0
          (fun c' hc' => hpar c' (List.mem_cons_of_mem c hc')) hid' hentry' htwo' he0' hp0
        have hfc : (c.parentId == some e0.poiId) = false := by
          rw [hpid]
          simpa using fun h => hpe0 h
        refine ⟨e1, he1, h1, h2, ?_, ?_⟩
        · rw [List.filter_cons, hfc]
          exact h3
        · rw [List.filter_cons, hfc]
          exact h4
    · have hstep : aggregateStep l c = l := by
        simp only [aggregateStep, hpid]
        rw [if_neg]
        rw [Bool.and_eq_true]
        exact fun h => hpp h.2
      rw [hstep]
      have hne : pid ≠ e0.poiId := by
        intro h
        apply hpp
        rw [h]
        exact (hasId_iff l e0.poiId).mpr (List.mem_map_of_mem _ he0)
      obtain ⟨e1, he1, h1, h2, h3, h4⟩ := ih l e0
        (fun c' hc' => hpar c' (List.mem_cons_of_mem c hc'))
        (fun c' hc' => hid c' (List.mem_cons_of_mem c hc'))
        (fun c' hc' => hentry c' (List.mem_cons_of_mem c hc'))
        (fun c' hc' => htwo c' (List.mem_cons_of_mem c hc')) he0 hp0
      have hfc : (c.parentId == some e0.poiId) = false := by
        rw [hpid]
        simpa using fun h => hne h
      refine ⟨e1, he1, h1, h2, ?_, ?_⟩
      · rw [List.filter_cons, hfc]
        exact h3
      · rw [List.filter_cons, hfc]
        exact h4

theorem filter_children_eq (base : List ScoreItem) (pid : ℕ) :
    (base.filter (fun it => it.parentId.isSome)).filter (fun c => c.parentId == some pid) =
      base.filter (fun c => c.parentId == some pid) := by
  rw [List.filter_filter]
  apply List.filter_congr
  intro c _
  cases hc : c.parentId <;> simp [hc]

/-! ### Claim theorems -/

/-- C1: for every POI evaluated in a badge context, the status is
nieaktywny exactly when no requirement badge of the context is active
(which includes having no requirements at all); otherwise zdobyty exactly
when every active requirement badge has a visit inside its window;
otherwise do_ponowienia exactly when some visit exists; otherwise
niezdobyty. -/
theorem claim_C1_status_state_machine (today : ℤ) (visits : List ℤ) (badges : List BadgeData) :
    (determineStatus today visits badges = "nieaktywny" ↔
      activeBadgesData today badges = [])
    ∧ (determineStatus today visits badges = "zdobyty" ↔
        activeBadgesData today badges ≠ [] ∧
        ∀ b ∈ activeBadgesData today badges, ∃ d ∈ visits,
          statusVisitInWindow b.startDate b.endDate d = true)
    ∧ (determineStatus today visits badges = "do_ponowienia" ↔
        activeBadgesData today badges ≠ [] ∧
        ¬(∀ b ∈ activeBadgesData today badges, ∃ d ∈ visits,
          statusVisitInWindow b.startDate b.endDate d = true) ∧ visits ≠ [])
    ∧ (determineStatus today visits badges = "niezdobyty" ↔
        activeBadgesData today badges ≠ [] ∧
        ¬(∀ b ∈ activeBadgesData today badges, ∃ d ∈ visits,
          statusVisitInWindow b.startDate b.endDate d = true) ∧ visits = []) := by
  by_cases hb : badges.isEmpty
  · have hbnil : badges = [] := List.isEmpty_iff.mp hb
    subst hbnil
    simp [determineStatus, activeBadgesData]
  · by_cases ha : (activeBadgesData today badges).isEmpty
    · have hanil : activeBadgesData today badges = [] := List.isEmpty_iff.mp ha
      have hstat : determineStatus today visits badges = "nieaktywny" := by
        simp [determineStatus, hb, ha]
      rw [hstat, hanil]
      simp
    · have hane : activeBadgesData today badges ≠ [] := by
        intro h
        rw [h] at ha
        exact ha rfl
      have hstat : determineStatus today visits badges =
          (if ((activeBadgesData today badges).filter (fun b =>
                visits.any (fun d => statusVisitInWindow b.startDate b.endDate d))).length =
              (activeBadgesData today badges).length
           then "zdobyty"
           else if !visits.isEmpty then "do_ponowienia" else "niezdobyty") := by
        have hbne : ¬ badges.isEmpty = true := hb
        simp only [determineStatus]
        rw [if_neg hbne, if_neg ha]
      have hclaimiff :
          ((activeBadgesData today badges).filter (fun b =>
              visits.any (fun d => statusVisitInWindow b.startDate b.endDate d))).length =
            (activeBadgesData today badges).length ↔
          ∀ b ∈ activeBadgesData today badges, ∃ d ∈ visits,
            statusVisitInWindow b.startDate b.endDate d = true := by
        rw [length_filter_eq_length_iff]
        simp [List.any_eq_true]
      by_cases hall : ∀ b ∈ activeBadgesData today badges, ∃ d ∈ visits,
          statusVisitInWindow b.startDate b.endDate d = true
      · rw [hstat, if_pos (hclaimiff.mpr hall)]
        refine ⟨⟨fun h => absurd h (by decide), fun h => absurd h hane⟩,
                ⟨fun _ => ⟨hane, hall⟩, fun _ => rfl⟩,
                ⟨fun h => absurd h (by decide), fun h => absurd hall h.2.1⟩,
                ⟨fun h => absurd h (by decide), fun h => absurd hall h.2.1⟩⟩
      · rw [hstat, if_neg (fun hlen => hall (hclaimiff.mp hlen))]
        by_cases hv : visits.isEmpty
        · have hvnil : visits = [] := List.isEmpty_iff.mp hv
          rw [if_neg (by simp [hv])]
          refine ⟨⟨fun h => absurd h (by decide), fun h => absurd h hane⟩,
                  ⟨fun h => absurd h (by decide), fun h => absurd h.2 hall⟩,
                  ⟨fun h => absurd h (by decide), fun h => absurd hvnil h.2.2⟩,
                  ⟨fun _ => ⟨hane, hall, hvnil⟩, fun _ => rfl⟩⟩
        · have hvne : visits ≠ [] := by
            intro h
            rw [h] at hv
            exact hv rfl
          rw [if_pos (by simp [List.isEmpty_iff, hvne])]
          refine ⟨⟨fun h => absurd h (by decide), fun h => absurd h hane⟩,
                  ⟨fun h => absurd h (by decide), fun h => absurd h.2 hall⟩,
                  ⟨fun _ => ⟨hane, hall, hvne⟩, fun _ => rfl⟩,
                  ⟨fun h => absurd h (by decide), fun h => absurd h.2.2 hvne⟩⟩

/-- C1 witness: one active badge with window 0..10 and a visit on day 5
gives the status zdobyty. -/
theorem claim_C1_status_state_machine_witness :
    determineStatus 0 [5] [BadgeData.mk false (some 0) (some 10)] = "zdobyty" :=
  ((claim_C1_status_state_machine 0 [5] [BadgeData.mk false (some 0) (some 10)]).2.1).mpr
    ⟨by decide, by decide⟩

/-- C5: the visit-claims-badge-window predicate is the same function at the
status calculator and the scoring engine, both agree with the consolidated
window-validity predicate, a visit exactly on the start or end date counts,
and an unbounded side is always satisfied. -/
theorem claim_C5_window_predicate_agreement (startDate endDate : Option ℤ) :
    (∀ visits : List ℤ,
      scoringIsClaimed startDate endDate visits =
        visits.any (fun d => statusVisitInWindow startDate endDate d))
    ∧ (∀ d, scoringVisitInWindow startDate endDate d = statusVisitInWindow startDate endDate d)
    ∧ (∀ d, statusVisitInWindow startDate endDate d = true ↔
        visitValidForBadgeWindow startDate endDate d)
    ∧ (∀ s, startDate = some s → endDate = none →
        statusVisitInWindow startDate endDate s = true)
    ∧ (∀ e, endDate = some e → startDate = none →
        statusVisitInWindow startDate endDate e = true)
    ∧ (∀ s e, startDate = some s → endDate = some e → s ≤ e →
        statusVisitInWindow startDate endDate s = true ∧
        statusVisitInWindow startDate endDate e = true)
    ∧ (startDate = none → endDate = none →
        ∀ d, statusVisitInWindow startDate endDate d = true) := by
  refine ⟨?_, fun _ => rfl, ?_, ?_, ?_, ?_, ?_⟩
  · intro visits
    induction visits with
    | nil => rfl
    | cons d ds ih =>
      rw [scoringIsClaimed, List.any_cons]
      by_cases h : scoringVisitInWindow startDate endDate d = true
      · have h' : statusVisitInWindow startDate endDate d = true := h
        simp [h, h']
      · have h' : ¬ statusVisitInWindow startDate endDate d = true := h
        simp only [h, Bool.false_eq_true, if_false, ih]
        simp [Bool.eq_false_iff.mpr h']
  · intro d
    cases startDate <;> cases endDate <;>
      simp [statusVisitInWindow, visitValidForBadgeWindow]
  · intro s hs he
    subst hs; subst he
    simp [statusVisitInWindow]
  · intro e he hs
    subst hs; subst he
    simp [statusVisitInWindow]
  · intro s e hs he hle
    subst hs; subst he
    simp [statusVisitInWindow, hle]
  · intro hs he d
    subst hs; subst he
    simp [statusVisitInWindow]

/-- C5 witness: both boundary dates of the window 3..8 are accepted. -/
theorem claim_C5_window_predicate_agreement_witness :
    statusVisitInWindow (some 3) (some 8) 3 = true ∧
    statusVisitInWindow (some 3) (some 8) 8 = true :=
  (claim_C5_window_predicate_agreement (some 3) (some 8)).2.2.2.2.2.1 3 8 rfl rfl (by decide)

/-- C4: the per-POI score is the sum of per-badge contributions; an
unclaimed pair with positive remaining count contributes exactly
100 / remaining; and for a badge with nothing claimed and a nonempty
requirement pool each required POI gets 100 / n and the badge's total
contribution over its pool is exactly 100. -/
theorem claim_C4_scoring_conservation (badges : List ScoringBadge) (reqs : List (ℕ × ℕ))
    (visitsByPoi : ℕ → List ℤ) (badgeId : ℕ) (b : ScoringBadge)
    (hfind : findBadge badges badgeId = some b) :
    (∀ requirements poiId,
      poiScore badges requirements visitsByPoi poiId =
        ((badgesOfPoi (activeRequirements badges requirements) poiId).map
          (fun bid =>
            badgeContribution badges (activeRequirements badges requirements)
              visitsByPoi bid poiId)).sum)
    ∧ (∀ poiId,
        scoringIsClaimed b.startDate b.endDate (visitsByPoi poiId) = false →
        0 < remainingCount badges reqs visitsByPoi badgeId →
        badgeContribution badges reqs visitsByPoi badgeId poiId =
          100 / (remainingCount badges reqs visitsByPoi badgeId : ℚ))
    ∧ ((∀ p ∈ poisOfBadge reqs badgeId,
          scoringIsClaimed b.startDate b.endDate (visitsByPoi p) = false) →
        poisOfBadge reqs badgeId ≠ [] →
        (∀ p ∈ poisOfBadge reqs badgeId,
          badgeContribution badges reqs visitsByPoi badgeId p =
            100 / ((poisOfBadge reqs badgeId).length : ℚ))
        ∧ ((poisOfBadge reqs badgeId).map
            (fun p => badgeContribution badges reqs visitsByPoi badgeId p)).sum = 100) := by
  refine ⟨?_, ?_, ?_⟩
  · intro requirements poiId
    unfold poiScore
    rw [scoreFold_eq_sum badges (activeRequirements badges requirements) visitsByPoi poiId]
    simp
  · intro poiId hnc hrem
    unfold badgeContribution
    rw [hfind]
    simp [hnc, hrem]
  · intro hall hne
    have hcc : claimedCount badges reqs visitsByPoi badgeId = 0 := by
      unfold claimedCount
      rw [hfind]
      simp only [List.length_eq_zero]
      rw [List.filter_eq_nil_iff]
      intro p hp
      simp [hall p hp]
    have hrem : remainingCount badges reqs visitsByPoi badgeId =
        (poisOfBadge reqs badgeId).length := by
      unfold remainingCount
      rw [hcc]
      exact Nat.sub_zero _
    have hlen : (poisOfBadge reqs badgeId).length ≠ 0 := by
      intro h
      exact hne (List.length_eq_zero.mp h)
    have hlenQ : ((poisOfBadge reqs badgeId).length : ℚ) ≠ 0 := by
      exact_mod_cast hlen
    have heach : ∀ p ∈ poisOfBadge reqs badgeId,
        badgeContribution badges reqs visitsByPoi badgeId p =
          100 / ((poisOfBadge reqs badgeId).length : ℚ) := by
      intro p hp
      unfold badgeContribution
      rw [hfind]
      simp only [hall p hp, Bool.false_eq_true, if_false, hrem]
      rw [if_pos (Nat.pos_of_ne_zero hlen)]
    refine ⟨heach, ?_⟩
    rw [List.map_congr_left (fun p hp => heach p hp)]
    rw [List.map_const', List.sum_replicate]
    rw [nsmul_eq_mul]
    field_simp

/-- C4 witness: a badge with five required POIs and nothing claimed gives
each POI exactly 20 points and 100 in total. -/
theorem claim_C4_scoring_conservation_witness :
    badgeContribution [ScoringBadge.mk 1 none none]
      [(1, 10), (1, 11), (1, 12), (1, 13), (1, 14)] (fun _ => []) 1 10 = 20 ∧
    ((poisOfBadge [(1, 10), (1, 11), (1, 12), (1, 13), (1, 14)] 1).map
      (fun p =>
        badgeContribution [ScoringBadge.mk 1 none none]
          [(1, 10), (1, 11), (1, 12), (1, 13), (1, 14)] (fun _ => []) 1 p)).sum = 100 := by
  have h := (claim_C4_scoring_conservation [ScoringBadge.mk 1 none none]
    [(1, 10), (1, 11), (1, 12), (1, 13), (1, 14)] (fun _ => []) 1
    (ScoringBadge.mk 1 none none) rfl).2.2 (by decide) (by decide)
  refine ⟨?_, h.2⟩
  have h10 := h.1 10 (by decide)
  rw [h10]
  norm_num [poisOfBadge]

/-- C2 counterexample: for the strictly descending profile 100, 50 the code
persists 0, while the round of the maximum over later points of the climb
from the running minimum is round(50 - 100) = -50, so the claim's equality
fails at this trip. -/
theorem claim_C2_everest_counterexample :
    (recalculateTripStats
      [TripSegmentData.mk 0 0 (some [(0, 0, 100), (0, 0, 50)])]).everestDiffM = 0
    ∧ pythonRound ((50 : ℚ) - 100) = -50 ∧ (0 : ℤ) ≠ -50 := by
  refine ⟨?_, ?_, by decide⟩
  · show pythonRound (everestDiffOfElevations
      ((segmentPoints [TripSegmentData.mk 0 0 (some [(0, 0, 100), (0, 0, 50)])]).map
        (fun p => p.2.2))) = 0
    have hp : segmentPoints [TripSegmentData.mk 0 0 (some [(0, 0, 100), (0, 0, 50)])] =
        [((0 : ℚ), (0 : ℚ), (100 : ℚ)), (0, 0, 50)] := rfl
    rw [hp]
    show pythonRound (everestScan [50] 0 100) = 0
    rw [everestScan, everestScan]
    norm_num [pythonRound]
  · norm_num [pythonRound]

/-- C2 amended: the persisted everest_diff_m is the round of the maximum of
0 and the largest climb from any earlier point to any later point of the
concatenated elevation profile (the code clamps the maximum at 0, so a
profile that never rises yields 0 rather than a negative value). -/
theorem claim_C2_everest_amended (segs : List TripSegmentData)
    (h2 : 2 ≤ (segmentPoints segs).length) :
    (recalculateTripStats segs).everestDiffM =
      pythonRound (everestDiffOfElevations ((segmentPoints segs).map (fun p => p.2.2)))
    ∧ 0 ≤ everestDiffOfElevations ((segmentPoints segs).map (fun p => p.2.2))
    ∧ (∀ l1 a l2 b l3,
        (segmentPoints segs).map (fun p => p.2.2) = l1 ++ a :: l2 ++ b :: l3 →
        b - a ≤ everestDiffOfElevations ((segmentPoints segs).map (fun p => p.2.2)))
    ∧ (everestDiffOfElevations ((segmentPoints segs).map (fun p => p.2.2)) = 0 ∨
        ∃ l1 a l2 b l3,
          (segmentPoints segs).map (fun p => p.2.2) = l1 ++ a :: l2 ++ b :: l3 ∧
          everestDiffOfElevations ((segmentPoints segs).map (fun p => p.2.2)) = b - a) := by
  refine ⟨rfl, everestDiff_nonneg _, ?_, everestDiff_attains _⟩
  intro l1 a l2 b l3 hsplit
  exact everestDiff_ge_pair _ l1 a l2 b l3 hsplit

/-- C2 witness: the profile 100, 150, 120, 200, 90, 300 persists the round
of its code-level Everest value, which is 210. -/
theorem claim_C2_everest_amended_witness :
    (recalculateTripStats
      [TripSegmentData.mk 0 0 (some [(0, 0, 100), (0, 0, 150), (0, 0, 120),
        (0, 0, 200), (0, 0, 90), (0, 0, 300)])]).everestDiffM =
      pythonRound (everestDiffOfElevations
        ((segmentPoints [TripSegmentData.mk 0 0 (some [(0, 0, 100), (0, 0, 150), (0, 0, 120),
          (0, 0, 200), (0, 0, 90), (0, 0, 300)])]).map (fun p => p.2.2)))
    ∧ (recalculateTripStats
        [TripSegmentData.mk 0 0 (some [(0, 0, 100), (0, 0, 150), (0, 0, 120),
          (0, 0, 200), (0, 0, 90), (0, 0, 300)])]).everestDiffM = 210 := by
  refine ⟨(claim_C2_everest_amended _ (by decide)).1, ?_⟩
  show pythonRound (everestDiffOfElevations
    ((segmentPoints [TripSegmentData.mk 0 0 (some [(0, 0, 100), (0, 0, 150), (0, 0, 120),
      (0, 0, 200), (0, 0, 90), (0, 0, 300)])]).map (fun p => p.2.2))) = 210
  have hp : segmentPoints [TripSegmentData.mk 0 0 (some [(0, 0, 100), (0, 0, 150), (0, 0, 120),
      (0, 0, 200), (0, 0, 90), (0, 0, 300)])] =
      [((0 : ℚ), (0 : ℚ), (100 : ℚ)), (0, 0, 150), (0, 0, 120),
        (0, 0, 200), (0, 0, 90), (0, 0, 300)] := rfl
  rw [hp]
  show pythonRound (everestScan [150, 120, 200, 90, 300] 0 100) = 210
  rw [everestScan, everestScan, everestScan, everestScan, everestScan, everestScan]
  norm_num [pythonRound]

/-- C9: the persisted everest_diff_m is never negative; a trip whose
concatenated point list has fewer than 2 points persists 0; and a profile
that never rises above its running minimum (pairwise non-increasing)
persists 0. -/
theorem claim_C9_everest_nonneg (segs : List TripSegmentData) :
    0 ≤ (recalculateTripStats segs).everestDiffM
    ∧ ((segmentPoints segs).length < 2 → (recalculateTripStats segs).everestDiffM = 0)
    ∧ (List.Pairwise (fun a b => b ≤ a) ((segmentPoints segs).map (fun p => p.2.2)) →
        (recalculateTripStats segs).everestDiffM = 0) := by
  have hM : (recalculateTripStats segs).everestDiffM =
      pythonRound (everestDiffOfElevations ((segmentPoints segs).map (fun p => p.2.2))) := rfl
  refine ⟨?_, ?_, ?_⟩
  · rw [hM]
    exact pythonRound_nonneg (everestDiff_nonneg _)
  · intro hlen
    rw [hM]
    rcases hsp : segmentPoints segs with _ | ⟨x, _ | ⟨y, rest⟩⟩
    · rw [show everestDiffOfElevations
          (List.map (fun p => p.2.2) ([] : List (ℚ × ℚ × ℚ))) = 0 from rfl]
      exact pythonRound_zero
    · rw [show everestDiffOfElevations (List.map (fun p => p.2.2) [x]) = 0 from rfl]
      exact pythonRound_zero
    · rw [hsp] at hlen
      simp at hlen
      omega
  · intro hpw
    rw [hM]
    have h0 : everestDiffOfElevations ((segmentPoints segs).map (fun p => p.2.2)) = 0 := by
      rcases everestDiff_attains ((segmentPoints segs).map (fun p => p.2.2)) with
        h | ⟨l1, a, l2, b, l3, hsplit, hval⟩
      · exact h
      · have hba : b ≤ a := by
          rw [hsplit] at hpw
          exact (List.pairwise_append.mp hpw).2.2 a (by simp) b (by simp)
        have hnn := everestDiff_nonneg ((segmentPoints segs).map (fun p => p.2.2))
        rw [hval] at hnn ⊢
        linarith
    rw [h0]
    exact pythonRound_zero

/-- C9 witness: a single-segment trip whose profile descends 300, 200, 100
persists everest_diff_m equal to 0. -/
theorem claim_C9_everest_nonneg_witness :
    (recalculateTripStats
      [TripSegmentData.mk 0 0 (some [(0, 0, 300), (0, 0, 200), (0, 0, 100)])]).everestDiffM = 0 :=
  (claim_C9_everest_nonneg
    [TripSegmentData.mk 0 0 (some [(0, 0, 300), (0, 0, 200), (0, 0, 100)])]).2.2 (by decide)

/-- C8: after trip-stats recalculation the persisted got_points equals
floor(distance_km) + floor(elevation_gain_m / 100) over the persisted
summed per-segment metrics, whenever each per-segment distance is a whole
number of hundredths (as produced by the per-segment rounding to two
decimals). -/
theorem claim_C8_got_points (segs : List TripSegmentData)
    (h : ∀ s ∈ segs, ∃ k : ℤ, s.distanceKm = (k : ℚ) / 100) :
    (recalculateTripStats segs).gotPoints =
      ⌊(recalculateTripStats segs).totalDistanceKm⌋ +
      ⌊((recalculateTripStats segs).totalElevationGainM : ℚ) / 100⌋ := by
  obtain ⟨K, hK⟩ := sum_distances_cent segs h
  have hround : roundTo2 ((segs.map (fun s => s.distanceKm)).sum) =
      (segs.map (fun s => s.distanceKm)).sum := by
    rw [hK, roundTo2]
    rw [show ((K : ℚ) / 100 * 100) = (K : ℚ) by field_simp]
    rw [pythonRound_intCast]
  show ⌊(segs.map (fun s => s.distanceKm)).sum⌋ +
      ⌊(((segs.map (fun s => s.elevationGainM)).sum : ℤ) : ℚ) / 100⌋ =
    ⌊roundTo2 ((segs.map (fun s => s.distanceKm)).sum)⌋ +
      ⌊(((segs.map (fun s => s.elevationGainM)).sum : ℤ) : ℚ) / 100⌋
  rw [hround]

/-- C8 witness: a single segment with distance 12.7 km and 450 m of
elevation gain yields got_points = 12 + 4 = 16. -/
theorem claim_C8_got_points_witness :
    (recalculateTripStats [TripSegmentData.mk (127 / 10) 450 none]).gotPoints =
      ⌊(recalculateTripStats [TripSegmentData.mk (127 / 10) 450 none]).totalDistanceKm⌋ +
      ⌊((recalculateTripStats [TripSegmentData.mk (127 / 10) 450 none]).totalElevationGainM : ℚ)
        / 100⌋
    ∧ (recalculateTripStats [TripSegmentData.mk (127 / 10) 450 none]).gotPoints = 16 := by
  refine ⟨claim_C8_got_points _ ?_, ?_⟩
  · intro s hs
    rcases List.mem_singleton.mp hs with rfl
    exact ⟨1270, by norm_num⟩
  · show ⌊((127 : ℚ) / 10 + 0)⌋ + ⌊(((450 : ℤ) + 0 : ℤ) : ℚ) / 100⌋ = 16
    norm_num

/-- C7: the GPX parser fails exactly when the input is not well-formed
track data or yields fewer than 2 points; otherwise it returns the ordered
(longitude, latitude, elevation) sequence with absent elevations replaced
by 0. -/
theorem claim_C7_gpx_parse (tracks : List (List (List GpxPoint))) :
    (∀ msg, parseGpxToLinestringAndStats (GpxInput.malformed msg) = Except.error msg)
    ∧ ((∃ e, parseGpxToLinestringAndStats (GpxInput.wellFormed tracks) = Except.error e) ↔
        (tracks.flatten.flatten).length < 2)
    ∧ (2 ≤ (tracks.flatten.flatten).length →
        parseGpxToLinestringAndStats (GpxInput.wellFormed tracks) =
          Except.ok ((tracks.flatten.flatten).map
            (fun p => (p.longitude, p.latitude, p.elevation.getD 0)))) := by
  refine ⟨fun msg => rfl, ?_, ?_⟩
  · constructor
    · rintro ⟨e, he⟩
      by_contra hlen
      push_neg at hlen
      simp only [parseGpxToLinestringAndStats] at he
      rw [if_neg (by rw [List.length_map]; omega)] at he
      exact Except.noConfusion he
    · intro hlen
      refine ⟨gpxTooShortMsg, ?_⟩
      simp only [parseGpxToLinestringAndStats]
      rw [if_pos (by rwa [List.length_map])]
  · intro hlen
    simp only [parseGpxToLinestringAndStats]
    rw [if_neg (by rw [List.length_map]; omega)]

/-- C7 witness: two points, the second without elevation, parse into the
ordered sequence with the absent elevation replaced by 0. -/
theorem claim_C7_gpx_parse_witness :
    parseGpxToLinestringAndStats
      (GpxInput.wellFormed [[[GpxPoint.mk 1 2 (some 5), GpxPoint.mk 3 4 none]]]) =
      Except.ok [((1 : ℚ), (2 : ℚ), (5 : ℚ)), (3, 4, 0)] := by
  have h := (claim_C7_gpx_parse [[[GpxPoint.mk 1 2 (some 5), GpxPoint.mk 3 4 none]]]).2.2
    (by decide)
  rw [h]
  rfl

/-- C6 counterexample: the manual invalidation operation does not delete
the single-POI full-ranking cache entry, so a store holding a value under
that key still returns it after the manual invalidation, refuting the claim
that every invalidation path deletes every scoring cache entry. -/
theorem claim_C6_cache_invalidation_counterexample :
    invalidateScoringCache
      (fun k => if k = singlePoiRankingKey then some 7 else (none : Option ℕ))
      singlePoiRankingKey = some 7
    ∧ some 7 ≠ (none : Option ℕ) := by
  constructor
  · rw [invalidateScoringCache,
      cacheDelete_other _ _ _ (by decide),
      cacheDelete_other _ _ _ (by decide),
      cacheDelete_other _ _ _ (by decide)]
    simp
  · simp

/-- C6 amended: the three signal handlers on Visit, Badge and
BadgeRequirement mutations each delete all four scoring cache entries,
while the manual invalidation operation deletes the base dataset and the
two dashboard entries but leaves the single-POI full-ranking entry
untouched. -/
theorem claim_C6_cache_invalidation_amended {V : Type} (store : String → Option V) :
    (invalidateScoringCacheOnVisitChange store scoringDataKey = none
      ∧ invalidateScoringCacheOnVisitChange store dashboardFullKey = none
      ∧ invalidateScoringCacheOnVisitChange store dashboardTopKey = none
      ∧ invalidateScoringCacheOnVisitChange store singlePoiRankingKey = none)
    ∧ (invalidateScoringCacheOnBadgeChange store scoringDataKey = none
      ∧ invalidateScoringCacheOnBadgeChange store dashboardFullKey = none
      ∧ invalidateScoringCacheOnBadgeChange store dashboardTopKey = none
      ∧ invalidateScoringCacheOnBadgeChange store singlePoiRankingKey = none)
    ∧ (invalidateScoringCacheOnRequirementChange store scoringDataKey = none
      ∧ invalidateScoringCacheOnRequirementChange store dashboardFullKey = none
      ∧ invalidateScoringCacheOnRequirementChange store dashboardTopKey = none
      ∧ invalidateScoringCacheOnRequirementChange store singlePoiRankingKey = none)
    ∧ (invalidateScoringCache store scoringDataKey = none
      ∧ invalidateScoringCache store dashboardFullKey = none
      ∧ invalidateScoringCache store dashboardTopKey = none
      ∧ invalidateScoringCache store singlePoiRankingKey = store singlePoiRankingKey) := by
  refine ⟨⟨?_, ?_, ?_, ?_⟩, ⟨?_, ?_, ?_, ?_⟩, ⟨?_, ?_, ?_, ?_⟩, ⟨?_, ?_, ?_, ?_⟩⟩
  · rw [invalidateScoringCacheOnVisitChange, cacheDelete_other _ _ _ (by decide),
      cacheDelete_other _ _ _ (by decide), cacheDelete_other _ _ _ (by decide),
      cacheDelete_self]
  · rw [invalidateScoringCacheOnVisitChange, cacheDelete_other _ _ _ (by decide),
      cacheDelete_other _ _ _ (by decide), cacheDelete_self]
  · rw [invalidateScoringCacheOnVisitChange, cacheDelete_other _ _ _ (by decide),
      cacheDelete_self]
  · rw [invalidateScoringCacheOnVisitChange, cacheDelete_self]
  · rw [invalidateScoringCacheOnBadgeChange, cacheDelete_other _ _ _ (by decide),
      cacheDelete_other _ _ _ (by decide), cacheDelete_other _ _ _ (by decide),
      cacheDelete_self]
  · rw [invalidateScoringCacheOnBadgeChange, cacheDelete_other _ _ _ (by decide),
      cacheDelete_other _ _ _ (by decide), cacheDelete_self]
  · rw [invalidateScoringCacheOnBadgeChange, cacheDelete_other _ _ _ (by decide),
      cacheDelete_self]
  · rw [invalidateScoringCacheOnBadgeChange, cacheDelete_self]
  · rw [invalidateScoringCacheOnRequirementChange, cacheDelete_other _ _ _ (by decide),
      cacheDelete_other _ _ _ (by decide), cacheDelete_other _ _ _ (by decide),
      cacheDelete_self]
  · rw [invalidateScoringCacheOnRequirementChange, cacheDelete_other _ _ _ (by decide),
      cacheDelete_other _ _ _ (by decide), cacheDelete_self]
  · rw [invalidateScoringCacheOnRequirementChange, cacheDelete_other _ _ _ (by decide),
      cacheDelete_self]
  · rw [invalidateScoringCacheOnRequirementChange, cacheDelete_self]
  · rw [invalidateScoringCache, cacheDelete_other _ _ _ (by decide),
      cacheDelete_other _ _ _ (by decide), cacheDelete_self]
  · rw [invalidateScoringCache, cacheDelete_other _ _ _ (by decide), cacheDelete_self]
  · rw [invalidateScoringCache, cacheDelete_self]
  · rw [invalidateScoringCache, cacheDelete_other _ _ _ (by decide),
      cacheDelete_other _ _ _ (by decide), cacheDelete_other _ _ _ (by decide)]

/-- C3 counterexample: a scored child whose parent is not itself among the
scored entries contributes nothing: the rollup of a single child pointing
at the absent parent 2 leaves the list unchanged and creates no entry for
the parent, refuting the claim that the child's score is added whether or
not the parent was independently scored. -/
theorem claim_C3_parent_rollup_counterexample :
    aggregateParentScoresFromBase [ScoreItem.mk 1 (some 2) "Dziecko" 10 []] =
      [ScoreItem.mk 1 (some 2) "Dziecko" 10 []]
    ∧ ¬ ∃ e ∈ aggregateParentScoresFromBase [ScoreItem.mk 1 (some 2) "Dziecko" 10 []],
        e.poiId = 2 := by
  constructor
  · rfl
  · decide

/-- C3 amended: the rollup result is sorted descending by score, its poi
ids are a permutation of the base ids, and for every parent entry (an item
without a parent of its own, under distinct ids and a two-level hierarchy)
the final score is the base score plus the scores of exactly those scored
children that point at it, each such child's name being recorded in the
parent's aggregated_from; children whose parent is absent from the scored
entries contribute nowhere. -/
theorem claim_C3_parent_rollup_amended (base : List ScoreItem)
    (hnodup : (itemIds base).Nodup)
    (htwo : ∀ c ∈ base, ∀ p ∈ base, c.parentId = some p.poiId → p.parentId = none) :
    List.Sorted scoreGE (aggregateParentScoresFromBase base)
    ∧ List.Perm (itemIds (aggregateParentScoresFromBase base)) (itemIds base)
    ∧ ∀ p ∈ base, p.parentId = none →
        ∃ e1 ∈ aggregateParentScoresFromBase base,
          e1.poiId = p.poiId ∧
          e1.score = p.score +
            ((base.filter (fun c => c.parentId == some p.poiId)).map
              (fun c => c.score)).sum ∧
          ∀ c ∈ base, c.parentId = some p.poiId → c.name ∈ e1.aggregatedFrom := by
  refine ⟨aggregate_sorted base, itemIds_perm_aggregate base, ?_⟩
  intro p hp hpnone
  have hbne : ¬ base.isEmpty = true := by
    cases base
    · cases hp
    · simp
  have hnodup' : (base.map (fun it => it.poiId)).Nodup := hnodup
  have hspec := aggregateFold_parent_spec (base.filter (fun it => it.parentId.isSome)) base p
    (fun c hc => by simpa using List.of_mem_filter hc)
    (fun c hc => List.mem_map_of_mem _ (List.mem_of_mem_filter hc))
    (fun c hc e he hpe => by
      have hec : e = c :=
        List.inj_on_of_nodup_map hnodup' he (List.mem_of_mem_filter hc) hpe
      rw [hec]
      exact ⟨rfl, rfl⟩)
    (fun c hc q hq e he hpe =>
      htwo c (List.mem_of_mem_filter hc) e he (by rw [hq, hpe]))
    hp hpnone
  obtain ⟨e1, he1, h1, _, h3, h4⟩ := hspec
  have he1' : e1 ∈ aggregateParentScoresFromBase base := by
    unfold aggregateParentScoresFromBase
    rw [if_neg hbne]
    unfold sortByScoreDesc
    exact (List.mem_insertionSort scoreGE).mpr he1
  refine ⟨e1, he1', h1, ?_, ?_⟩
  · rw [h3, filter_children_eq]
  · intro c hc hcp
    rw [h4]
    apply List.mem_append_right
    refine List.mem_map.mpr ⟨c, ?_, rfl⟩
    rw [filter_children_eq]
    exact List.mem_filter.mpr ⟨hc, by rw [hcp]; exact beq_self_eq_true _⟩

/-- C3 witness: a child with score 10 pointing at a scored parent with
score 5 is rolled into the parent's entry: the parent ends with score
5 + 10 and the child's name in aggregated_from. -/
theorem claim_C3_parent_rollup_amended_witness :
    ∃ e1 ∈ aggregateParentScoresFromBase
        [ScoreItem.mk 1 (some 2) "Dziecko" 10 [], ScoreItem.mk 2 (none) "Rodzic" 5 []],
      e1.poiId = (ScoreItem.mk 2 (none) "Rodzic" 5 []).poiId ∧
      e1.score = (ScoreItem.mk 2 (none) "Rodzic" 5 []).score +
        (([ScoreItem.mk 1 (some 2) "Dziecko" 10 [],
           ScoreItem.mk 2 (none) "Rodzic" 5 []].filter
            (fun c => c.parentId == some (ScoreItem.mk 2 (none) "Rodzic" 5 []).poiId)).map
          (fun c => c.score)).sum ∧
      ∀ c ∈ [ScoreItem.mk 1 (some 2) "Dziecko" 10 [], ScoreItem.mk 2 (none) "Rodzic" 5 []],
        c.parentId = some (ScoreItem.mk 2 (none) "Rodzic" 5 []).poiId →
        c.name ∈ e1.aggregatedFrom :=
  (claim_C3_parent_rollup_amended
    [ScoreItem.mk 1 (some 2) "Dziecko" 10 [], ScoreItem.mk 2 (none) "Rodzic" 5 []]
    (by decide) (by decide)).2.2
    (ScoreItem.mk 2 (none) "Rodzic" 5 []) (by decide) rfl

/-- C10: for every POI id that does not occur in the aggregated full
ranking built from a base scores list, the single-POI score lookup returns
exactly 0 instead of failing. -/
theorem claim_C10_missing_poi_zero (base : List ScoreItem) (poiId : ℕ)
    (h : poiId ∉ itemIds base) :
    getScoreForSinglePoi (aggregateParentScoresFromBase base) poiId = 0 := by
  have hnot : poiId ∉ itemIds (aggregateParentScoresFromBase base) := by
    intro hmem
    exact h ((itemIds_perm_aggregate base).subset hmem)
  have hfind : (aggregateParentScoresFromBase base).find?
      (fun it => it.poiId == poiId) = none := by
    rw [List.find?_eq_none]
    intro it hit hbeq
    apply hnot
    exact List.mem_map.mpr ⟨it, hit, by simpa using hbeq⟩
  unfold getScoreForSinglePoi
  rw [hfind]

/-- C10 witness: looking up POI id 2 in the ranking built from a base that
only scores POI 1 returns 0. -/
theorem claim_C10_missing_poi_zero_witness :
    getScoreForSinglePoi
      (aggregateParentScoresFromBase [ScoreItem.mk 1 (none) "Szczyt" 5 []]) 2 = 0 :=
  claim_C10_missing_poi_zero [ScoreItem.mk 1 (none) "Szczyt" 5 []] 2 (by decide)

end Odznaki
